import Mathlib

/-!
Verification of the race-telemetry streaming engine.

The TypeScript source is embedded shallowly: JavaScript numbers are modelled
as exact rationals (`ℚ`) — the algebraic viewport/downsampling claims are about
the real-number formulas the code implements — `Math.sin` is abstracted as a
function parameter, and the stateful React pieces (buffer flushes, connection
retry, domain-initialization effects) are modelled as explicit state-passing
functions over the same data.
-/

/-- A telemetry sample, `interface TelemetryPoint` in the source:
timestamp `t` (seconds) and the three channels. -/
structure TelemetryPoint where
  t : ℚ
  speed : ℚ
  current : ℚ
  temp : ℚ
deriving DecidableEq, Inhabited

/-- `MAX_BUFFER_SIZE = 120000` in the dashboard source. -/
def MAX_BUFFER_SIZE : ℕ := 120000

/-- One batch flush of the dashboard buffer (the `setTimeout` body shared by
`generateMockData` and the websocket `onmessage` handler):
`newData = [...prevData, ...pending]; if (newData.length > MAX_BUFFER_SIZE)
return newData.slice(-MAX_BUFFER_SIZE)`.  `slice(-cap)` keeps the last `cap`
elements, i.e. drops `length - cap` from the front. -/
def flushStep (buf pending : List α) (cap : ℕ) : List α :=
  let newData := buf ++ pending
  if cap < newData.length then newData.drop (newData.length - cap) else newData

/-- Run a sequence of batch flushes starting from the empty buffer. -/
def runFlushes (cap : ℕ) (batches : List (List α)) : List α :=
  batches.foldl (fun buf b => flushStep buf b cap) []

/-- `pushPoint` from `useTelemetry.ts`: appends one point and
`splice(0, next.length - maxPoints)` with `maxPoints = 60 * 60 * 4`. -/
def pushPoint (prev : List TelemetryPoint) (p : TelemetryPoint) : List TelemetryPoint :=
  let maxPoints : ℕ := 60 * 60 * 4
  let next := prev ++ [p]
  if maxPoints < next.length then next.drop (next.length - maxPoints) else next

/-- The last `cap` elements of a list (all of it when shorter than `cap`). -/
def lastN (cap : ℕ) (l : List α) : List α := l.drop (l.length - cap)

theorem flushStep_eq_lastN (buf pending : List α) (cap : ℕ) :
    flushStep buf pending cap = lastN cap (buf ++ pending) := by
  simp only [flushStep, lastN]
  split
  · rfl
  · rename_i h
    rw [Nat.sub_eq_zero_of_le (Nat.le_of_not_lt h), List.drop_zero]

theorem lastN_length (cap : ℕ) (l : List α) : (lastN cap l).length = min l.length cap := by
  simp only [lastN, List.length_drop]
  omega

theorem lastN_append (cap : ℕ) (l p : List α) :
    lastN cap (lastN cap l ++ p) = lastN cap (l ++ p) := by
  unfold lastN
  rcases le_or_lt l.length cap with h | h
  · rw [Nat.sub_eq_zero_of_le h, List.drop_zero]
  · have hk : l.length - cap ≤ l.length := Nat.sub_le _ _
    rw [← List.drop_append_of_le_length hk, List.drop_drop]
    congr 1
    simp only [List.length_append, List.length_drop]
    omega

theorem runFlushes_aux (cap : ℕ) (batches : List (List α)) (acc : List α) :
    batches.foldl (fun buf b => flushStep buf b cap) (lastN cap acc) =
      lastN cap (acc ++ batches.flatten) := by
  induction batches generalizing acc with
  | nil => simp
  | cons b bs ih =>
    simp only [List.foldl_cons, List.flatten_cons]
    rw [flushStep_eq_lastN, lastN_append, ih (acc ++ b), List.append_assoc]

theorem runFlushes_eq_lastN (cap : ℕ) (batches : List (List α)) :
    runFlushes cap batches = lastN cap batches.flatten := by
  have h := runFlushes_aux cap batches []
  simpa [runFlushes, lastN] using h

theorem flatten_map_singleton (l : List α) : (l.map (fun i => [i])).flatten = l := by
  induction l with
  | nil => rfl
  | cons x xs ih => simp [ih]

/-- C1: for every sequence of batch flushes the buffer length stays at most the
capacity and the retained contents are exactly the most recent `min(total, cap)`
appended samples in arrival order (oldest dropped from the front); appending
150000 samples one at a time with cap `MAX_BUFFER_SIZE = 120000` leaves a buffer
of length 120000 whose first retained sample is the 30001st appended one
(index 30000 counting from 0). -/
theorem buffer_bound_and_eviction :
    (∀ (cap : ℕ) (batches : List (List ℕ)),
       (runFlushes cap batches).length ≤ cap ∧
       (runFlushes cap batches).length = min (batches.flatten).length cap ∧
       runFlushes cap batches =
         (batches.flatten).drop ((batches.flatten).length - cap)) ∧
    (runFlushes MAX_BUFFER_SIZE ((List.range 150000).map (fun i => [i]))).length = 120000 ∧
    (runFlushes MAX_BUFFER_SIZE ((List.range 150000).map (fun i => [i]))).head? =
      some 30000 := by
  have key : ∀ (cap : ℕ) (batches : List (List ℕ)),
      runFlushes cap batches = (batches.flatten).drop ((batches.flatten).length - cap) := by
    intro cap batches
    rw [runFlushes_eq_lastN]
    rfl
  refine ⟨fun cap batches => ?_, ?_, ?_⟩
  · refine ⟨?_, ?_, key cap batches⟩
    · rw [runFlushes_eq_lastN, lastN_length]; omega
    · rw [runFlushes_eq_lastN, lastN_length]
  · rw [key, flatten_map_singleton]
    rw [List.length_drop, List.length_range]
    norm_num [MAX_BUFFER_SIZE]
  · rw [key, flatten_map_singleton]
    have h30 : (List.range 150000).length - MAX_BUFFER_SIZE = 30000 := by
      rw [List.length_range]
      norm_num [MAX_BUFFER_SIZE]
    rw [h30, List.head?_drop, List.getElem?_range (by norm_num)]

/-! ## Connection manager: reconnect backoff (`ws.onclose` in `connectWebSocket`) -/

/-- The action the `onclose` handler takes besides updating its refs/state. -/
inductive ConnAction where
  | scheduleReconnect (delayMs : ℕ)
  | degradeToMock
  | noRetry
deriving DecidableEq

/-- The mutable state the `onclose` handler reads and writes:
`isMockMode` and `reconnectAttemptsRef.current`. -/
structure ConnRetryState where
  isMockMode : Bool
  reconnectAttempts : ℕ
deriving DecidableEq

/-- `Math.min(1000 * Math.pow(2, reconnectAttempts), 30000)`. -/
def backoffDelay (attempts : ℕ) : ℕ := min (1000 * 2 ^ attempts) 30000

/-- The `ws.onclose` handler of `connectWebSocket`: if mock data is enabled and
we are not yet in mock mode, degrade immediately; otherwise compute the backoff
delay from the current attempt counter, increment it, and schedule a reconnect
only while the incremented counter is below 3, else degrade to mock data when
enabled and otherwise do nothing further. -/
def wsOnClose (mockDataEnabled : Bool) (s : ConnRetryState) : ConnRetryState × ConnAction :=
  if mockDataEnabled ∧ ¬ s.isMockMode then
    ({ s with isMockMode := true }, .degradeToMock)
  else
    let delay := backoffDelay s.reconnectAttempts
    let attempts := s.reconnectAttempts + 1
    if attempts < 3 then
      ({ s with reconnectAttempts := attempts }, .scheduleReconnect delay)
    else if mockDataEnabled then
      ({ isMockMode := true, reconnectAttempts := attempts }, .degradeToMock)
    else
      ({ s with reconnectAttempts := attempts }, .noRetry)

/-- C3: the computed backoff delays for attempt indices 0, 1, 2 are exactly
1000, 2000, 4000 ms (the formula is `min(1000·2^attempts, 30000)`); with
synthetic fallback disabled the handler schedules reconnects with those delays
while the incremented counter stays below 3, and once the counter reaches 3
(close at attempt index 2) it stays out of mock mode with no reconnect
scheduled, while with fallback enabled the state becomes mock/degraded. -/
theorem backoff_sequence_and_fallback :
    backoffDelay 0 = 1000 ∧ backoffDelay 1 = 2000 ∧ backoffDelay 2 = 4000 ∧
    (∀ m : Bool, wsOnClose false ⟨m, 0⟩ = (⟨m, 1⟩, .scheduleReconnect 1000)) ∧
    (∀ m : Bool, wsOnClose false ⟨m, 1⟩ = (⟨m, 2⟩, .scheduleReconnect 2000)) ∧
    (∀ m : Bool, wsOnClose false ⟨m, 2⟩ = (⟨m, 3⟩, .noRetry)) ∧
    (∀ m : Bool, (wsOnClose true ⟨m, 2⟩).1.isMockMode = true ∧
      (wsOnClose true ⟨m, 2⟩).2 = .degradeToMock) := by
  refine ⟨rfl, rfl, rfl, ?_, ?_, ?_, ?_⟩ <;> decide

/-! ## Viewport controller: pan (`handleMouseMove`) -/

/-- `interface ChartDomain` from the source. -/
structure ChartDomain where
  xMin : ℚ
  xMax : ℚ
  yMin : ℚ
  yMax : ℚ
deriving DecidableEq, Inhabited

/-- `handleMouseMove` of the first dashboard variant: shift both bounds by
`deltaT = deltaFrac * span`, then clamp to `[0, (dataLen − 1)/hz]`,
transferring each clamp's overflow to the opposite bound. -/
def handleMouseMove000 (drag : ChartDomain) (deltaFrac : ℚ) (dataLen : ℕ) (hz : ℚ) :
    ChartDomain :=
  let span := drag.xMax - drag.xMin
  let deltaT := deltaFrac * span
  let newXMin := drag.xMin - deltaT
  let newXMax := drag.xMax - deltaT
  let minTime : ℚ := 0
  let maxTime : ℚ := ((dataLen : ℚ) - 1) / hz
  let a1 := if newXMin < minTime then minTime else newXMin
  let b1 := if newXMin < minTime then newXMax + (minTime - newXMin) else newXMax
  let a2 := if b1 > maxTime then a1 - (b1 - maxTime) else a1
  let b2 := if b1 > maxTime then maxTime else b1
  { drag with xMin := a2, xMax := b2 }

/-- `handleMouseMove` of the second dashboard variant: the same uniform shift
with no clamping at all. -/
def handleMouseMove001 (drag : ChartDomain) (deltaFrac : ℚ) : ChartDomain :=
  let span := drag.xMax - drag.xMin
  let deltaT := deltaFrac * span
  { drag with xMin := drag.xMin - deltaT, xMax := drag.xMax - deltaT }

theorem handleMouseMove000_span (drag : ChartDomain) (deltaFrac : ℚ) (dataLen : ℕ) (hz : ℚ) :
    (handleMouseMove000 drag deltaFrac dataLen hz).xMax -
      (handleMouseMove000 drag deltaFrac dataLen hz).xMin = drag.xMax - drag.xMin := by
  simp only [handleMouseMove000]
  split <;> split <;> ring

theorem handleMouseMove001_span (drag : ChartDomain) (deltaFrac : ℚ) :
    (handleMouseMove001 drag deltaFrac).xMax - (handleMouseMove001 drag deltaFrac).xMin =
      drag.xMax - drag.xMin := by
  simp only [handleMouseMove001]
  ring

/-- C4: every pan (any drag-start domain and any pixel delta fraction), in
both dashboard variants, yields a domain with exactly the span of the starting
domain — clamp overflow is transferred to the opposite bound, so the width is
preserved exactly even at the data boundaries. -/
theorem pan_span_preserved :
    (∀ (drag : ChartDomain) (deltaFrac : ℚ) (dataLen : ℕ) (hz : ℚ),
       (handleMouseMove000 drag deltaFrac dataLen hz).xMax -
         (handleMouseMove000 drag deltaFrac dataLen hz).xMin = drag.xMax - drag.xMin) ∧
    (∀ (drag : ChartDomain) (deltaFrac : ℚ),
       (handleMouseMove001 drag deltaFrac).xMax - (handleMouseMove001 drag deltaFrac).xMin =
         drag.xMax - drag.xMin) :=
  ⟨handleMouseMove000_span, handleMouseMove001_span⟩

/-! ## Viewport controller: domain initialization effects -/

/-- `Math.min(...data.map(d => d.t))` over a nonempty list (the handlers guard
on `data.length > 0` before calling it). -/
def listMinT : List ℚ → ℚ
  | [] => 0
  | x :: xs => xs.foldl min x

/-- `Math.max(...data.map(d => d.t))` over a nonempty list. -/
def listMaxT : List ℚ → ℚ
  | [] => 0
  | x :: xs => xs.foldl max x

/-- The domain both initialization effects construct:
`xMin = followTail ? max(0, maxT - 30) : minT`, `xMax = maxT`, fixed y-range. -/
def computeInitDomain (followTail : Bool) (minT maxT : ℚ) : ChartDomain :=
  { xMin := if followTail then max 0 (maxT - 30) else minT
    xMax := maxT
    yMin := 0
    yMax := 100 }

/-- The first dashboard variant's initialization `useEffect` (dependency
`[data.length]`, body guarded only by `data.length > 0`): it runs on every
change of the buffer length and unconditionally overwrites the domain. -/
def domainInitEffect000 (followTail : Bool) (ts : List ℚ) (dom : Option ChartDomain) :
    Option ChartDomain :=
  if 0 < ts.length then some (computeInitDomain followTail (listMinT ts) (listMaxT ts))
  else dom

/-- The second dashboard variant's initialization `useEffect`
(`if (telemetry.data.length > 0 && !chartDomain)`): it only sets the domain
while it is still unset. -/
def domainInitEffect001 (followTail : Bool) (ts : List ℚ) (dom : Option ChartDomain) :
    Option ChartDomain :=
  if 0 < ts.length ∧ dom = none then
    some (computeInitDomain followTail (listMinT ts) (listMaxT ts))
  else dom

/-- C7 (code bug in the first variant): the second variant never touches an
already-set domain, but the first variant re-initializes on a subsequent
append: with the domain already initialized for the one-sample buffer `[0]`,
flushing a sample at `t = 40` (buffer `[0, 40]`, a length change) overwrites
the domain with a freshly initialized one, which differs from the stored one —
contradicting the claim that initialization fires only on the empty→non-empty
transition. -/
theorem init_domain_refires :
    (∀ (ft : Bool) (ts : List ℚ) (d : ChartDomain),
       domainInitEffect001 ft ts (some d) = some d) ∧
    domainInitEffect000 true [0, 40] (some (computeInitDomain true 0 0)) =
      some (computeInitDomain true 0 40) ∧
    computeInitDomain true 0 40 ≠ computeInitDomain true 0 0 := by
  refine ⟨fun ft ts d => ?_, ?_, ?_⟩
  · simp [domainInitEffect001]
  · simp [domainInitEffect000, listMinT, listMaxT]
  · simp [computeInitDomain, ChartDomain.mk.injEq]

/-! ## Synthetic generator (`generateMockData`) -/

/-- `MOCK_DATA_INTERVAL = 50` (milliseconds). -/
def MOCK_DATA_INTERVAL : ℚ := 50

/-- The additive noise term `(Math.random() - 0.5) * width` for a channel with
multiplier `width`, where `u` stands for the `Math.random()` draw in `[0, 1)`. -/
def mockNoise (width u : ℚ) : ℚ := (u - 1/2) * width

/-- `generateMockData`, with `Math.sin` abstracted as `sinF` and the three
`Math.random()` draws as `rs`, `rc`, `rt`.  While not playing it returns
without advancing the simulated clock `mockTime`; otherwise it advances the
clock by `(MOCK_DATA_INTERVAL/1000) * rate` and emits one sample whose
channels are `base + sin(t·freq)·amplitude + noise`, clamped non-negative. -/
def generateMockData (sinF : ℚ → ℚ) (isPlaying : Bool) (rate mockTime rs rc rt : ℚ) :
    ℚ × Option TelemetryPoint :=
  if ¬ isPlaying then (mockTime, none)
  else
    let deltaT := MOCK_DATA_INTERVAL / 1000 * rate
    let tNew := mockTime + deltaT
    let baseSpeed := 30 + sinF (tNew * (1/10)) * 15
    let baseCurrent := 60 + sinF (tNew * (15/100)) * 25
    let baseTemp := 50 + sinF (tNew * (5/100)) * 20
    (tNew, some
      { t := tNew
        speed := max 0 (baseSpeed + mockNoise 5 rs)
        current := max 0 (baseCurrent + mockNoise 10 rc)
        temp := max 0 (baseTemp + mockNoise 8 rt) })

/-- C8 counterexample: the claim calls the per-channel noise "uniform with
half-width 5 (speed)", but the speed noise `(u − 0.5)·5` over `u ∈ [0, 1]`
never attains the value 4 that a half-width-5 uniform noise would attain; its
largest attainable magnitude is 5/2 (at `u = 1`), strictly below 5. -/
theorem mock_noise_halfwidth_cex :
    (¬ ∃ u : ℚ, 0 ≤ u ∧ u ≤ 1 ∧ mockNoise 5 u = 4) ∧
    mockNoise 5 1 = 5/2 ∧ ((5 : ℚ)/2 < 5) := by
  refine ⟨?_, by norm_num [mockNoise], by norm_num⟩
  rintro ⟨u, h0, h1, he⟩
  rw [mockNoise] at he
  nlinarith

/-- C8 (amended): while paused no tick occurs and the simulated clock does not
advance; on a playing tick the clock advances by exactly `0.05 · rate` and the
emitted sample's channels equal `base + sin(simClock·freq)·amplitude + noise`
clamped non-negative, with `(base, freq, amplitude)` equal to `(30, 0.1, 15)`,
`(60, 0.15, 25)`, `(50, 0.05, 20)` and noise `(u − 0.5)·width` for widths
5, 10, 8 — i.e. uniform noise of half-width 2.5, 5, 4 (not 5, 10, 8). -/
theorem mock_tick_amended (sinF : ℚ → ℚ) (rate mockTime rs rc rt : ℚ)
    (hrs0 : 0 ≤ rs) (hrs1 : rs ≤ 1) (hrc0 : 0 ≤ rc) (hrc1 : rc ≤ 1)
    (hrt0 : 0 ≤ rt) (hrt1 : rt ≤ 1) :
    generateMockData sinF false rate mockTime rs rc rt = (mockTime, none) ∧
    (generateMockData sinF true rate mockTime rs rc rt).1 = mockTime + (1/20) * rate ∧
    (generateMockData sinF true rate mockTime rs rc rt).2 = some
      { t := mockTime + (1/20) * rate
        speed := max 0 (30 + sinF ((mockTime + (1/20) * rate) * (1/10)) * 15 + mockNoise 5 rs)
        current := max 0 (60 + sinF ((mockTime + (1/20) * rate) * (15/100)) * 25 + mockNoise 10 rc)
        temp := max 0 (50 + sinF ((mockTime + (1/20) * rate) * (5/100)) * 20 + mockNoise 8 rt) } ∧
    |mockNoise 5 rs| ≤ 5/2 ∧ |mockNoise 10 rc| ≤ 5 ∧ |mockNoise 8 rt| ≤ 4 := by
  have hdt : MOCK_DATA_INTERVAL / 1000 * rate = (1/20) * rate := by
    norm_num [MOCK_DATA_INTERVAL]
  refine ⟨rfl, ?_, ?_, ?_, ?_, ?_⟩
  · simp [generateMockData, hdt]
  · simp [generateMockData, hdt]
  · rw [abs_le, mockNoise]; constructor <;> nlinarith
  · rw [abs_le, mockNoise]; constructor <;> nlinarith
  · rw [abs_le, mockNoise]; constructor <;> nlinarith

/-- Witness for C8's amended theorem at a concrete input: the sine function
constantly 0, rate 1, clock 0 and all three random draws equal to 1. -/
theorem mock_tick_amended_witness :
    generateMockData (fun _ => 0) false 1 0 1 1 1 = (0, none) ∧
    (generateMockData (fun _ => 0) true 1 0 1 1 1).1 = 0 + (1/20) * 1 ∧
    (generateMockData (fun _ => 0) true 1 0 1 1 1).2 = some
      { t := 0 + (1/20) * 1
        speed := max 0 (30 + (fun (_ : ℚ) => (0:ℚ)) ((0 + (1/20) * 1) * (1/10)) * 15 + mockNoise 5 1)
        current := max 0 (60 + (fun (_ : ℚ) => (0:ℚ)) ((0 + (1/20) * 1) * (15/100)) * 25 + mockNoise 10 1)
        temp := max 0 (50 + (fun (_ : ℚ) => (0:ℚ)) ((0 + (1/20) * 1) * (5/100)) * 20 + mockNoise 8 1) } ∧
    |mockNoise 5 1| ≤ 5/2 ∧ |mockNoise 10 1| ≤ 5 ∧ |mockNoise 8 1| ≤ 4 :=
  mock_tick_amended (fun _ => 0) 1 0 1 1 1 (by norm_num) (by norm_num) (by norm_num)
    (by norm_num) (by norm_num) (by norm_num)

/-! ## Viewport controller: zoom (`handleWheel`) -/

/-- The clamped new span of the first variant's `handleWheel`:
`newSpan = currentSpan * zoomFactor` clamped into
`[MIN_ZOOM_SPAN = 2, totalDataSpan * 1.2]`, with
`zoomFactor = deltaY > 0 ? 1 + 0.1 : 1 - 0.1`. -/
def zoomNewSpan (d : ChartDomain) (minT maxT : ℚ) (deltaYPos : Bool) : ℚ :=
  let totalDataSpan := maxT - minT
  let maxZoomSpan := totalDataSpan * (12/10)
  let currentSpan := d.xMax - d.xMin
  let zoomFactor : ℚ := if deltaYPos then 1 + 1/10 else 1 - 1/10
  max 2 (min maxZoomSpan (currentSpan * zoomFactor))

/-- The pre-clamp left bound of the first variant's `handleWheel`:
`newXMin = mouseT - (mouseT - xMin) * (newSpan / currentSpan)` with
`mouseT = xMin + mouseX * currentSpan`. -/
def zoomRawXMin (d : ChartDomain) (minT maxT p : ℚ) (deltaYPos : Bool) : ℚ :=
  let currentSpan := d.xMax - d.xMin
  let mouseT := d.xMin + p * currentSpan
  mouseT - (mouseT - d.xMin) * (zoomNewSpan d minT maxT deltaYPos / currentSpan)

/-- The clamping cascade of the first variant's `handleWheel`: slide the
window right when it underflows `minT`, left when it overflows `maxT`, and if
it still sticks out re-center it on the data midpoint, falling back to the
full extent when the span does not fit. -/
def zoomClampedPair (d : ChartDomain) (minT maxT p : ℚ) (deltaYPos : Bool) : ℚ × ℚ :=
  let newSpan := zoomNewSpan d minT maxT deltaYPos
  let a0 := zoomRawXMin d minT maxT p deltaYPos
  let b0 := a0 + newSpan
  let a1 := if a0 < minT then minT else a0
  let b1 := if a0 < minT then minT + newSpan else b0
  let a2 := if maxT < b1 then maxT - newSpan else a1
  let b2 := if maxT < b1 then maxT else b1
  let center := (minT + maxT) / 2
  if a2 < minT ∨ maxT < b2 then
    (if center - newSpan / 2 < minT then (minT, maxT)
     else (center - newSpan / 2, center + newSpan / 2))
  else (a2, b2)

/-- `handleWheel` of the first dashboard variant: compute the zoomed and
clamped pair, then reject (`return` without updating, modelled as `none`) when
the resulting range is inverted or empty (`newXMin >= newXMax`). -/
def handleWheel000 (d : ChartDomain) (minT maxT p : ℚ) (deltaYPos : Bool) :
    Option ChartDomain :=
  let ab := zoomClampedPair d minT maxT p deltaYPos
  if ab.2 ≤ ab.1 then none else some { d with xMin := ab.1, xMax := ab.2 }

/-- `handleWheel` of the second dashboard variant: `newSpan = max(2, span *
zoomFactor)`, anchor at the cursor, no data clamping and no rejection. -/
def handleWheel001 (d : ChartDomain) (p : ℚ) (deltaYPos : Bool) : ChartDomain :=
  let currentSpan := d.xMax - d.xMin
  let zoomFactor : ℚ := if deltaYPos then 1 + 1/10 else 1 - 1/10
  let newSpan := max 2 (currentSpan * zoomFactor)
  let mouseT := d.xMin + p * currentSpan
  let newXMin := mouseT - (mouseT - d.xMin) * (newSpan / currentSpan)
  { d with xMin := newXMin, xMax := newXMin + newSpan }

theorem zoomNewSpan_pos (d : ChartDomain) (minT maxT : ℚ) (dir : Bool) :
    0 < zoomNewSpan d minT maxT dir :=
  lt_of_lt_of_le (by norm_num) (le_max_left _ _)

theorem zoomClampedPair_of_unclamped (d : ChartDomain) (minT maxT p : ℚ) (dir : Bool)
    (hlo : minT ≤ zoomRawXMin d minT maxT p dir)
    (hhi : zoomRawXMin d minT maxT p dir + zoomNewSpan d minT maxT dir ≤ maxT) :
    zoomClampedPair d minT maxT p dir =
      (zoomRawXMin d minT maxT p dir,
       zoomRawXMin d minT maxT p dir + zoomNewSpan d minT maxT dir) := by
  have h1 : ¬ (zoomRawXMin d minT maxT p dir < minT) := not_lt.mpr hlo
  have h2 : ¬ (maxT < zoomRawXMin d minT maxT p dir + zoomNewSpan d minT maxT dir) :=
    not_lt.mpr hhi
  simp only [zoomClampedPair, if_neg h1, if_neg h2, if_neg (not_or.mpr ⟨h1, h2⟩)]

theorem handleWheel000_some_valid (d d2 : ChartDomain) (minT maxT p : ℚ) (dir : Bool)
    (h : handleWheel000 d minT maxT p dir = some d2) : d2.xMin < d2.xMax := by
  simp only [handleWheel000] at h
  split at h
  · exact absurd h (by simp)
  · rename_i hgt
    cases h
    exact not_le.mp hgt

theorem handleWheel001_valid (d : ChartDomain) (p : ℚ) (dir : Bool) :
    (handleWheel001 d p dir).xMin < (handleWheel001 d p dir).xMax := by
  simp only [handleWheel001]
  have h2 : (2:ℚ) ≤ max 2 ((d.xMax - d.xMin) * (if dir then 1 + 1/10 else 1 - 1/10)) :=
    le_max_left _ _
  linarith

/-- C5: zooming keeps the time under the cursor fixed whenever the result is
not clamped at the data edges: in the first variant, if the raw anchored
window already lies inside `[minT, maxT]`, the handler accepts it and the new
domain satisfies `newXMin + p*newSpan = xMin + p*span` (the anchored `mouseT`);
the second variant, which never clamps, satisfies the same identity for every
zoom on a valid domain. -/
theorem zoom_anchor_invariant (d : ChartDomain) (minT maxT p : ℚ) (dir : Bool)
    (hspan : d.xMin < d.xMax)
    (hlo : minT ≤ zoomRawXMin d minT maxT p dir)
    (hhi : zoomRawXMin d minT maxT p dir + zoomNewSpan d minT maxT dir ≤ maxT) :
    (∃ d2, handleWheel000 d minT maxT p dir = some d2 ∧
       d2.xMin + p * (d2.xMax - d2.xMin) = d.xMin + p * (d.xMax - d.xMin)) ∧
    (handleWheel001 d p dir).xMin +
        p * ((handleWheel001 d p dir).xMax - (handleWheel001 d p dir).xMin) =
      d.xMin + p * (d.xMax - d.xMin) := by
  have hne : d.xMax - d.xMin ≠ 0 := sub_ne_zero_of_ne hspan.ne'
  constructor
  · have hS : 0 < zoomNewSpan d minT maxT dir := zoomNewSpan_pos d minT maxT dir
    refine ⟨⟨zoomRawXMin d minT maxT p dir,
             zoomRawXMin d minT maxT p dir + zoomNewSpan d minT maxT dir,
             d.yMin, d.yMax⟩, ?_, ?_⟩
    · simp only [handleWheel000, zoomClampedPair_of_unclamped d minT maxT p dir hlo hhi]
      rw [if_neg (by linarith)]
    · simp only [zoomRawXMin]
      field_simp
      ring
  · simp only [handleWheel001]
    field_simp
    ring

/-- Witness for C5 at a concrete input: domain `[0, 10]`, data extent
`[0, 10]`, cursor at the middle, zooming in. -/
theorem zoom_anchor_invariant_witness :
    ((⟨0, 10, 0, 100⟩ : ChartDomain).xMin < (⟨0, 10, 0, 100⟩ : ChartDomain).xMax) ∧
    (0:ℚ) ≤ zoomRawXMin ⟨0, 10, 0, 100⟩ 0 10 (1/2) false ∧
    zoomRawXMin ⟨0, 10, 0, 100⟩ 0 10 (1/2) false +
        zoomNewSpan ⟨0, 10, 0, 100⟩ 0 10 false ≤ 10 ∧
    ((∃ d2, handleWheel000 ⟨0, 10, 0, 100⟩ 0 10 (1/2) false = some d2 ∧
        d2.xMin + (1/2) * (d2.xMax - d2.xMin) =
          (⟨0, 10, 0, 100⟩ : ChartDomain).xMin +
            (1/2) * ((⟨0, 10, 0, 100⟩ : ChartDomain).xMax -
              (⟨0, 10, 0, 100⟩ : ChartDomain).xMin)) ∧
      (handleWheel001 ⟨0, 10, 0, 100⟩ (1/2) false).xMin +
          (1/2) * ((handleWheel001 ⟨0, 10, 0, 100⟩ (1/2) false).xMax -
            (handleWheel001 ⟨0, 10, 0, 100⟩ (1/2) false).xMin) =
        (⟨0, 10, 0, 100⟩ : ChartDomain).xMin +
          (1/2) * ((⟨0, 10, 0, 100⟩ : ChartDomain).xMax -
            (⟨0, 10, 0, 100⟩ : ChartDomain).xMin)) :=
  ⟨by norm_num, by norm_num [zoomRawXMin, zoomNewSpan],
   by norm_num [zoomRawXMin, zoomNewSpan],
   zoom_anchor_invariant ⟨0, 10, 0, 100⟩ 0 10 (1/2) false (by norm_num)
     (by norm_num [zoomRawXMin, zoomNewSpan]) (by norm_num [zoomRawXMin, zoomNewSpan])⟩

/-! ## Viewport controller: validity under zoom/pan sequences -/

/-- One user viewport operation, covering both dashboard variants' wheel-zoom
and drag-pan handlers (each carries the environment its handler reads: data
extent, cursor fraction, wheel direction, drag delta). -/
inductive ViewOp where
  | zoom000 (minT maxT p : ℚ) (dir : Bool)
  | pan000 (deltaFrac : ℚ) (dataLen : ℕ) (hz : ℚ)
  | zoom001 (p : ℚ) (dir : Bool)
  | pan001 (deltaFrac : ℚ)

/-- Apply one viewport operation to the current domain; a rejected zoom
(`handleWheel000` returning without updating) leaves the domain unchanged. -/
def applyViewOp (d : ChartDomain) : ViewOp → ChartDomain
  | .zoom000 minT maxT p dir => (handleWheel000 d minT maxT p dir).getD d
  | .pan000 f len hz => handleMouseMove000 d f len hz
  | .zoom001 p dir => handleWheel001 d p dir
  | .pan001 f => handleMouseMove001 d f

theorem applyViewOp_valid (d : ChartDomain) (op : ViewOp) (h : d.xMin < d.xMax) :
    (applyViewOp d op).xMin < (applyViewOp d op).xMax := by
  cases op with
  | zoom000 minT maxT p dir =>
    rcases hw : handleWheel000 d minT maxT p dir with _ | d2
    · simpa only [applyViewOp, hw, Option.getD] using h
    · simpa only [applyViewOp, hw, Option.getD] using
        handleWheel000_some_valid d d2 minT maxT p dir hw
  | pan000 f len hz =>
    have hsp := handleMouseMove000_span d f len hz
    simp only [applyViewOp]
    linarith
  | zoom001 p dir => exact handleWheel001_valid d p dir
  | pan001 f =>
    have hsp := handleMouseMove001_span d f
    simp only [applyViewOp]
    linarith

/-- C6: starting from a valid domain (`xMin < xMax`), no sequence of zoom and
pan operations — in either dashboard variant — ever produces an inverted or
empty domain, and a zoom whose clamped result would be invalid is rejected as
a no-op, retaining the prior domain unchanged.  (In this exact-rational
embedding non-finite bounds cannot arise; the code's `isNaN` guard sits on the
same rejection path that is modelled here.) -/
theorem domain_validity_ops (d : ChartDomain) (ops : List ViewOp)
    (h : d.xMin < d.xMax) :
    (ops.foldl applyViewOp d).xMin < (ops.foldl applyViewOp d).xMax ∧
    (∀ (d₀ : ChartDomain) (minT maxT p : ℚ) (dir : Bool),
       handleWheel000 d₀ minT maxT p dir = none →
       applyViewOp d₀ (ViewOp.zoom000 minT maxT p dir) = d₀) := by
  constructor
  · induction ops generalizing d with
    | nil => exact h
    | cons op rest ih =>
      exact ih (applyViewOp d op) (applyViewOp_valid d op h)
  · intro d₀ minT maxT p dir hw
    simp only [applyViewOp, hw, Option.getD]

/-- Witness for C6 at a concrete input: the valid domain `[0, 10]` and a
two-operation sequence (a pan of half the width, then a zoom-out). -/
theorem domain_validity_ops_witness :
    ((⟨0, 10, 0, 100⟩ : ChartDomain).xMin < (⟨0, 10, 0, 100⟩ : ChartDomain).xMax) ∧
    (([ViewOp.pan001 (1/2), ViewOp.zoom001 (1/2) true].foldl applyViewOp
        ⟨0, 10, 0, 100⟩).xMin <
      ([ViewOp.pan001 (1/2), ViewOp.zoom001 (1/2) true].foldl applyViewOp
        ⟨0, 10, 0, 100⟩).xMax) :=
  ⟨by norm_num,
   (domain_validity_ops ⟨0, 10, 0, 100⟩ [ViewOp.pan001 (1/2), ViewOp.zoom001 (1/2) true]
     (by norm_num)).1⟩

/-! ## Downsampling engine: LTTB (`downsampleLTTB`) -/

/-- Bucket boundary of `downsampleLTTB`:
`Math.floor(bucketIndex * bucketSize) + 1`. -/
def lttbBucketStart (bucketSize : ℚ) (bi : ℕ) : ℕ := (⌊(bi : ℚ) * bucketSize⌋).toNat + 1

/-- The triangle area computed in `downsampleLTTB`'s inner loop:
`Math.abs((prev.t - avgX)*(p.speed - prev.speed) - (prev.t - p.t)*(avgY - prev.speed)) * 0.5`. -/
def lttbArea (prev : TelemetryPoint) (avgX avgY : ℚ) (p : TelemetryPoint) : ℚ :=
  |(prev.t - avgX) * (p.speed - prev.speed) - (prev.t - p.t) * (avgY - prev.speed)| * (1/2)

/-- `downsampleLTTB`'s inner loop: scan indices `[lo, hi)` keeping the index of
the strictly largest area seen so far, starting from `maxArea = -1` and
`maxAreaIndex = lo`. -/
def argmaxArea (data : List TelemetryPoint) (prev : TelemetryPoint) (avgX avgY : ℚ)
    (lo hi : ℕ) : ℕ :=
  ((List.range' lo (hi - lo)).foldl
    (fun acc j =>
      if acc.1 < lttbArea prev avgX avgY (data.getD j default) then
        (lttbArea prev avgX avgY (data.getD j default), j)
      else acc)
    ((-1 : ℚ), lo)).2

/-- Sum of `t` over the index range `[lo, hi)` (the next-bucket average loop). -/
def sumT (data : List TelemetryPoint) (lo hi : ℕ) : ℚ :=
  ((List.range' lo (hi - lo)).map (fun j => (data.getD j default).t)).sum

/-- Sum of `speed` over the index range `[lo, hi)`. -/
def sumSpeed (data : List TelemetryPoint) (lo hi : ℕ) : ℚ :=
  ((List.range' lo (hi - lo)).map (fun j => (data.getD j default).speed)).sum

/-- One iteration of `downsampleLTTB`'s outer loop at bucket index `bi` with
previously selected point `prev`: average the next bucket (leaving the average
at 0 when that bucket is empty, as the source does) and return the index of
the area-maximizing point of the current bucket. -/
def lttbStep (data : List TelemetryPoint) (bucketSize : ℚ) (prev : TelemetryPoint)
    (bi : ℕ) : ℕ :=
  let bucketStart := lttbBucketStart bucketSize bi
  let bucketEnd := lttbBucketStart bucketSize (bi + 1)
  let nextBucketStart := bucketEnd
  let nextBucketEnd := min (lttbBucketStart bucketSize (bi + 2)) (data.length - 1)
  let n := nextBucketEnd - nextBucketStart
  let avgNextX := if 0 < n then sumT data nextBucketStart nextBucketEnd / (n : ℚ) else 0
  let avgNextY := if 0 < n then sumSpeed data nextBucketStart nextBucketEnd / (n : ℚ) else 0
  argmaxArea data prev avgNextX avgNextY bucketStart bucketEnd

/-- The outer loop of `downsampleLTTB` (`for i = 1; i < threshold - 1; i++`),
run for `k` remaining iterations with current bucket index `bi` and previously
pushed point `prev`; returns the list of points it pushes. -/
def lttbRec (data : List TelemetryPoint) (bucketSize : ℚ) :
    TelemetryPoint → ℕ → ℕ → List TelemetryPoint
  | _, _, 0 => []
  | prev, bi, k + 1 =>
    let q := data.getD (lttbStep data bucketSize prev bi) default
    q :: lttbRec data bucketSize q (bi + 1) k

/-- `downsampleLTTB`: identity when `data.length <= threshold || threshold <= 2`,
otherwise first point, one point per interior bucket, last point. -/
def downsampleLTTB (data : List TelemetryPoint) (threshold : ℕ) : List TelemetryPoint :=
  if data.length ≤ threshold ∨ threshold ≤ 2 then data
  else
    let bucketSize : ℚ := ((data.length : ℚ) - 2) / ((threshold : ℚ) - 2)
    (data.headD default ::
      lttbRec data bucketSize (data.headD default) 0 (threshold - 2)) ++
      [data.getLastD default]

/-! ## Downsampling engine: min-max bucketing (`downsampleMinMax`) -/

/-- The combined channel value `point.speed + point.current + point.temp` used
by `downsampleMinMax` as its scalar extremeness proxy. -/
def chSum (p : TelemetryPoint) : ℚ := p.speed + p.current + p.temp

/-- The min/max scan of one bucket: fold over the bucket starting from
`minPoint = maxPoint = bucket[0]`, updating on strict comparisons exactly as
the source's `value < minValue` / `value > maxValue` tests do. -/
def minMaxFold (bucket : List TelemetryPoint) (p0 : TelemetryPoint) :
    TelemetryPoint × TelemetryPoint :=
  bucket.foldl
    (fun acc q =>
      let acc1 := if chSum q < chSum acc.1 then (q, acc.2) else acc
      if chSum acc1.2 < chSum q then (acc1.1, q) else acc1)
    (p0, p0)

/-- What `downsampleMinMax` pushes for one bucket: the single point of a
one-element bucket, otherwise the min/max pair ordered by `minPoint.t <
maxPoint.t` (so the pair `(maxPoint, minPoint)` when the times are equal,
in particular when both are the same point). -/
def bucketEmit (bucket : List TelemetryPoint) : List TelemetryPoint :=
  match bucket with
  | [] => []
  | [p] => [p]
  | p :: _ :: _ =>
    let mm := minMaxFold bucket p
    if mm.1.t < mm.2.t then [mm.1, mm.2] else [mm.2, mm.1]

/-- Fuel-driven chunking of `data.slice(i, min(i + bucketSize, data.length))`
for `i = 0, bucketSize, 2·bucketSize, …`; the fuel (instantiated with
`data.length`, an upper bound on the iteration count for `bsize ≥ 1`) keeps
the recursion structural so the kernel can evaluate it. -/
def chunkListAux (bsize : ℕ) : ℕ → List TelemetryPoint → List (List TelemetryPoint)
  | _, [] => []
  | 0, xs => [xs]
  | fuel + 1, x :: xs =>
    (x :: xs).take bsize :: chunkListAux bsize fuel ((x :: xs).drop bsize)

/-- The bucket partition of `downsampleMinMax`'s outer loop.  For
`bsize = 0` (the JS `Math.ceil(length/0) = Infinity` situation, arising only
for `targetPoints = 0`) the loop makes a single pass with the whole array. -/
def chunkList (bsize : ℕ) (data : List TelemetryPoint) : List (List TelemetryPoint) :=
  if bsize = 0 then (if data.isEmpty then [] else [data])
  else chunkListAux bsize data.length data

/-- `downsampleMinMax`: identity when `data.length <= targetPoints`, otherwise
partition into buckets of `Math.ceil(data.length / targetPoints)` and emit the
min/max pair (or singleton) of each bucket. -/
def downsampleMinMax (data : List TelemetryPoint) (targetPoints : ℕ) :
    List TelemetryPoint :=
  if data.length ≤ targetPoints then data
  else
    let bucketSize := (data.length + targetPoints - 1) / targetPoints
    ((chunkList bucketSize data).map bucketEmit).flatten

/-- Shorthand for a single-channel sample used by the concrete test inputs:
time `t`, `speed` carrying the value, other channels zero. -/
def sp (t v : ℚ) : TelemetryPoint := { t := t, speed := v, current := 0, temp := 0 }

example :
    downsampleMinMax
      [sp 0 5, sp 1 1, sp 2 9, sp 3 5, sp 4 1, sp 5 9, sp 6 1, sp 7 9, sp 8 5] 3 =
      [sp 1 1, sp 2 9, sp 4 1, sp 5 9, sp 6 1, sp 7 9] := by
  norm_num [downsampleMinMax, chunkList, chunkListAux, bucketEmit, minMaxFold, chSum, sp]

example :
    (downsampleMinMax
      [sp 0 0, sp 1 1, sp 2 2, sp 3 3, sp 4 4, sp 5 5, sp 6 6, sp 7 7, sp 8 8, sp 9 9]
      5).length = 10 := by
  norm_num [downsampleMinMax, chunkList, chunkListAux, bucketEmit, minMaxFold, chSum, sp]

/-! ## LTTB structural lemmas -/

theorem foldl_argmax_prop (g : ℕ → ℚ) (P : ℕ → Prop) :
    ∀ (l : List ℕ) (init : ℚ × ℕ), P init.2 → (∀ j ∈ l, P j) →
      P ((l.foldl (fun acc j => if acc.1 < g j then (g j, j) else acc) init).2) := by
  intro l
  induction l with
  | nil => intro init h0 _; exact h0
  | cons j l ih =>
    intro init h0 hl
    simp only [List.foldl_cons]
    refine ih _ ?_ (fun i hi => hl i (List.mem_cons_of_mem j hi))
    by_cases hc : init.1 < g j
    · simpa [hc] using hl j (List.mem_cons_self j l)
    · simpa [hc] using h0

theorem argmaxArea_ge (data : List TelemetryPoint) (prev : TelemetryPoint)
    (avgX avgY : ℚ) (lo hi : ℕ) : lo ≤ argmaxArea data prev avgX avgY lo hi := by
  unfold argmaxArea
  refine foldl_argmax_prop _ (fun j => lo ≤ j) _ ((-1 : ℚ), lo) le_rfl ?_
  intro j hj
  have := List.mem_range'_1.mp hj
  omega

theorem argmaxArea_lt (data : List TelemetryPoint) (prev : TelemetryPoint)
    (avgX avgY : ℚ) (lo hi : ℕ) (h : lo < hi) :
    argmaxArea data prev avgX avgY lo hi < hi := by
  unfold argmaxArea
  refine foldl_argmax_prop _ (fun j => j < hi) _ ((-1 : ℚ), lo) h ?_
  intro j hj
  have := List.mem_range'_1.mp hj
  omega

theorem lttbBucketStart_mono (bs : ℚ) (hbs : 0 ≤ bs) {bi bj : ℕ} (h : bi ≤ bj) :
    lttbBucketStart bs bi ≤ lttbBucketStart bs bj := by
  unfold lttbBucketStart
  have hfl : ⌊(bi : ℚ) * bs⌋ ≤ ⌊(bj : ℚ) * bs⌋ :=
    Int.floor_le_floor (mul_le_mul_of_nonneg_right (by exact_mod_cast h) hbs)
  omega

theorem lttbBucketStart_strict (bs : ℚ) (hbs : 1 ≤ bs) (bi : ℕ) :
    lttbBucketStart bs bi < lttbBucketStart bs (bi + 1) := by
  unfold lttbBucketStart
  have h0 : (0 : ℚ) ≤ (bi : ℚ) * bs := by positivity
  have hfl0 : 0 ≤ ⌊(bi : ℚ) * bs⌋ := Int.floor_nonneg.mpr h0
  have hstep : ⌊(bi : ℚ) * bs⌋ + 1 ≤ ⌊((bi + 1 : ℕ) : ℚ) * bs⌋ := by
    rw [Int.le_floor]
    have hfle : (⌊(bi : ℚ) * bs⌋ : ℚ) ≤ (bi : ℚ) * bs := Int.floor_le _
    push_cast
    nlinarith
  omega

theorem lttbStep_bounds (data : List TelemetryPoint) (bs : ℚ) (prev : TelemetryPoint)
    (bi : ℕ) (hbs : 1 ≤ bs) :
    lttbBucketStart bs bi ≤ lttbStep data bs prev bi ∧
      lttbStep data bs prev bi < lttbBucketStart bs (bi + 1) := by
  unfold lttbStep
  exact ⟨argmaxArea_ge _ _ _ _ _ _,
    argmaxArea_lt _ _ _ _ _ _ (lttbBucketStart_strict bs hbs bi)⟩

theorem lttbRec_length (data : List TelemetryPoint) (bs : ℚ) :
    ∀ (k bi : ℕ) (prev : TelemetryPoint), (lttbRec data bs prev bi k).length = k := by
  intro k
  induction k with
  | zero => intro bi prev; rfl
  | succ k ih => intro bi prev; simp [lttbRec, ih]

theorem lttbRec_spec (data : List TelemetryPoint) (bs : ℚ) (hbs : 1 ≤ bs) :
    ∀ (k bi : ℕ) (prev : TelemetryPoint),
      ∃ is : List ℕ,
        lttbRec data bs prev bi k = is.map (fun i => data.getD i default) ∧
        is.Pairwise (· < ·) ∧
        (∀ i ∈ is, lttbBucketStart bs bi ≤ i ∧ i < lttbBucketStart bs (bi + k)) := by
  intro k
  induction k with
  | zero =>
    intro bi prev
    exact ⟨[], rfl, List.Pairwise.nil, by simp⟩
  | succ k ih =>
    intro bi prev
    obtain ⟨is, hmap, hpw, hbd⟩ :=
      ih (bi + 1) (data.getD (lttbStep data bs prev bi) default)
    obtain ⟨hsl, hsu⟩ := lttbStep_bounds data bs prev bi hbs
    refine ⟨lttbStep data bs prev bi :: is, ?_, ?_, ?_⟩
    · simp only [lttbRec, hmap, List.map_cons]
    · refine List.Pairwise.cons (fun j hj => ?_) hpw
      exact lt_of_lt_of_le hsu (hbd j hj).1
    · intro i hi
      rcases List.mem_cons.mp hi with rfl | hi
      · refine ⟨hsl, lt_of_lt_of_le hsu ?_⟩
        exact lttbBucketStart_mono bs (le_trans zero_le_one hbs) (by omega)
      · obtain ⟨hl, hu⟩ := hbd i hi
        refine ⟨le_trans (lttbBucketStart_mono bs (le_trans zero_le_one hbs) (by omega)) hl, ?_⟩
        have : bi + 1 + k = bi + (k + 1) := by omega
        rw [← this]
        exact hu

theorem map_getD_sublist (d : TelemetryPoint) :
    ∀ (is : List ℕ) (l : List TelemetryPoint) (k : ℕ),
      is.Pairwise (· < ·) → (∀ i ∈ is, k ≤ i ∧ i < l.length) →
      List.Sublist (is.map (fun i => l.getD i d)) (l.drop k) := by
  intro is
  induction is with
  | nil => intro l k _ _; exact List.nil_sublist _
  | cons i is ih =>
    intro l k hpw hb
    obtain ⟨hki, hilen⟩ := hb i (List.mem_cons_self i is)
    have hrest : ∀ j ∈ is, i + 1 ≤ j ∧ j < l.length := by
      intro j hj
      exact ⟨(List.pairwise_cons.mp hpw).1 j hj, (hb j (List.mem_cons_of_mem i hj)).2⟩
    have htail : List.Sublist (is.map (fun i => l.getD i d)) (l.drop (i + 1)) :=
      ih l (i + 1) (List.pairwise_cons.mp hpw).2 hrest
    have hgd : l.getD i d = l[i] := by
      rw [List.getD_eq_getElem?_getD, List.getElem?_eq_getElem hilen, Option.getD_some]
    have hcons : List.Sublist (l.getD i d :: is.map (fun i => l.getD i d)) (l.drop i) := by
      rw [List.drop_eq_getElem_cons hilen, hgd]
      exact List.Sublist.cons₂ _ htail
    rw [List.map_cons]
    exact hcons.trans (List.drop_sublist_drop_left l hki)

/-- The exact value of the final bucket boundary: with
`bs = (n − 2)/(threshold − 2)` the index `lttbBucketStart bs (threshold − 2)`
is exactly `n − 1`. -/
theorem lttbBucketStart_final (n threshold : ℕ) (h2 : 2 < threshold) (hn : threshold < n) :
    lttbBucketStart (((n : ℚ) - 2) / ((threshold : ℚ) - 2)) (threshold - 2) = n - 1 := by
  unfold lttbBucketStart
  have hth : (0 : ℚ) < (threshold : ℚ) - 2 := by
    have : (2 : ℚ) < (threshold : ℚ) := by exact_mod_cast h2
    linarith
  have hcast : ((threshold - 2 : ℕ) : ℚ) = (threshold : ℚ) - 2 := by
    push_cast [Nat.cast_sub (by omega : 2 ≤ threshold)]
    ring
  have hmul : ((threshold - 2 : ℕ) : ℚ) * (((n : ℚ) - 2) / ((threshold : ℚ) - 2)) =
      (n : ℚ) - 2 := by
    rw [hcast]
    field_simp
  have hn2 : ((n : ℚ) - 2) = ((n - 2 : ℕ) : ℚ) := by
    push_cast [Nat.cast_sub (by omega : 2 ≤ n)]
    ring
  rw [hmul, hn2, Int.floor_natCast]
  omega

theorem lttb_bucketSize_ge_one (n threshold : ℕ) (h2 : 2 < threshold) (hn : threshold < n) :
    1 ≤ ((n : ℚ) - 2) / ((threshold : ℚ) - 2) := by
  have hth : (0 : ℚ) < (threshold : ℚ) - 2 := by
    have : (2 : ℚ) < (threshold : ℚ) := by exact_mod_cast h2
    linarith
  rw [le_div_iff₀ hth]
  have : (threshold : ℚ) ≤ (n : ℚ) := by
    have := le_of_lt hn
    exact_mod_cast this
  linarith

theorem downsampleLTTB_not_guard (data : List TelemetryPoint) (threshold : ℕ)
    (h2 : 2 < threshold) (hn : threshold < data.length) :
    downsampleLTTB data threshold =
      (data.headD default ::
        lttbRec data (((data.length : ℚ) - 2) / ((threshold : ℚ) - 2))
          (data.headD default) 0 (threshold - 2)) ++ [data.getLastD default] := by
  unfold downsampleLTTB
  rw [if_neg]
  push_neg
  omega

theorem downsampleLTTB_length (data : List TelemetryPoint) (threshold : ℕ)
    (h2 : 2 < threshold) (hn : threshold < data.length) :
    (downsampleLTTB data threshold).length = threshold := by
  rw [downsampleLTTB_not_guard data threshold h2 hn]
  simp [lttbRec_length]
  omega

theorem downsampleLTTB_mem_first (data : List TelemetryPoint) (threshold : ℕ)
    (h2 : 2 < threshold) (hn : threshold < data.length) :
    data.headD default ∈ downsampleLTTB data threshold := by
  rw [downsampleLTTB_not_guard data threshold h2 hn]
  simp

theorem downsampleLTTB_mem_last (data : List TelemetryPoint) (threshold : ℕ)
    (h2 : 2 < threshold) (hn : threshold < data.length) :
    data.getLastD default ∈ downsampleLTTB data threshold := by
  rw [downsampleLTTB_not_guard data threshold h2 hn]
  simp

theorem headD_eq_getD (l : List TelemetryPoint) (d : TelemetryPoint) (h : l ≠ []) :
    l.headD d = l.getD 0 d := by
  cases l with
  | nil => exact absurd rfl h
  | cons a l => rfl

theorem getLastD_eq_getD (l : List TelemetryPoint) (d : TelemetryPoint) :
    l.getLastD d = l.getD (l.length - 1) d := by
  rw [List.getLastD_eq_getLast?, List.getLast?_eq_getElem?, List.getD_eq_getElem?_getD]

theorem downsampleLTTB_sublist (data : List TelemetryPoint) (threshold : ℕ)
    (h2 : 2 < threshold) (hn : threshold < data.length) :
    List.Sublist (downsampleLTTB data threshold) data := by
  have hbs : 1 ≤ ((data.length : ℚ) - 2) / ((threshold : ℚ) - 2) :=
    lttb_bucketSize_ge_one data.length threshold h2 hn
  obtain ⟨is, hmap, hpw, hbd⟩ :=
    lttbRec_spec data (((data.length : ℚ) - 2) / ((threshold : ℚ) - 2)) hbs
      (threshold - 2) 0 (data.headD default)
  have hstart0 : lttbBucketStart (((data.length : ℚ) - 2) / ((threshold : ℚ) - 2)) 0 = 1 := by
    unfold lttbBucketStart
    norm_num
  have hfinal : lttbBucketStart (((data.length : ℚ) - 2) / ((threshold : ℚ) - 2))
      (threshold - 2) = data.length - 1 :=
    lttbBucketStart_final data.length threshold h2 hn
  have hbd' : ∀ i ∈ is, 1 ≤ i ∧ i < data.length - 1 := by
    intro i hi
    obtain ⟨hl, hu⟩ := hbd i hi
    rw [hstart0] at hl
    rw [Nat.zero_add, hfinal] at hu
    exact ⟨hl, hu⟩
  have hne : data ≠ [] := by
    intro hcon
    rw [hcon] at hn
    simp at hn
  have hJmap : downsampleLTTB data threshold =
      (0 :: is ++ [data.length - 1]).map (fun i => data.getD i default) := by
    rw [downsampleLTTB_not_guard data threshold h2 hn, hmap]
    rw [headD_eq_getD data default hne, getLastD_eq_getD data default]
    simp
  have hJpw : (0 :: is ++ [data.length - 1]).Pairwise (· < ·) := by
    refine List.Pairwise.cons ?_ ?_
    · intro j hj
      rcases List.mem_append.mp hj with hj | hj
      · exact lt_of_lt_of_le one_pos (hbd' j hj).1
      · rcases List.mem_singleton.mp hj with rfl
        omega
    · refine List.pairwise_append.mpr ⟨hpw, List.pairwise_singleton _ _, ?_⟩
      intro i hi j hj
      rcases List.mem_singleton.mp hj with rfl
      exact (hbd' i hi).2
  have hJbd : ∀ i ∈ 0 :: is ++ [data.length - 1], 0 ≤ i ∧ i < data.length := by
    intro i hi
    rcases List.mem_cons.mp hi with rfl | hi
    · exact ⟨le_rfl, by omega⟩
    · rcases List.mem_append.mp hi with hi | hi
      · exact ⟨Nat.zero_le _, lt_trans (hbd' i hi).2 (by omega)⟩
      · rcases List.mem_singleton.mp hi with rfl
        exact ⟨Nat.zero_le _, by omega⟩
  rw [hJmap]
  have := map_getD_sublist default (0 :: is ++ [data.length - 1]) data 0 hJpw hJbd
  rwa [List.drop_zero] at this

/-- C9: for every input longer than the budget with budget > 2,
`downsampleLTTB` returns exactly `budget` points — the first input point, one
point per each of the `budget − 2` interior loop iterations, and the last
input point (so the output starts with `data[0]` and ends with
`data[data.length − 1]`). -/
theorem lttb_exact_count (data : List TelemetryPoint) (threshold : ℕ)
    (h2 : 2 < threshold) (hn : threshold < data.length) :
    (downsampleLTTB data threshold).length = threshold ∧
    (downsampleLTTB data threshold).head? = some (data.headD default) ∧
    (downsampleLTTB data threshold).getLast? = some (data.getLastD default) := by
  refine ⟨downsampleLTTB_length data threshold h2 hn, ?_, ?_⟩
  · rw [downsampleLTTB_not_guard data threshold h2 hn, List.cons_append, List.head?_cons]
  · rw [downsampleLTTB_not_guard data threshold h2 hn, List.getLast?_concat]

/-- Witness for C9: the spec's scenario input — 10 points, budget 5 — has more
points than the budget and a budget above 2, so the downsampled output has
exactly 5 points, starting with `input[0]` and ending with `input[9]`. -/
theorem lttb_exact_count_witness :
    2 < 5 ∧
    5 < ([sp 0 0, sp 1 5, sp 2 1, sp 3 8, sp 4 2, sp 5 9, sp 6 3, sp 7 7, sp 8 4,
          sp 9 6] : List TelemetryPoint).length ∧
    (downsampleLTTB
      [sp 0 0, sp 1 5, sp 2 1, sp 3 8, sp 4 2, sp 5 9, sp 6 3, sp 7 7, sp 8 4, sp 9 6]
      5).length = 5 ∧
    (downsampleLTTB
      [sp 0 0, sp 1 5, sp 2 1, sp 3 8, sp 4 2, sp 5 9, sp 6 3, sp 7 7, sp 8 4, sp 9 6]
      5).head? = some (sp 0 0) ∧
    (downsampleLTTB
      [sp 0 0, sp 1 5, sp 2 1, sp 3 8, sp 4 2, sp 5 9, sp 6 3, sp 7 7, sp 8 4, sp 9 6]
      5).getLast? = some (sp 9 6) := by
  have h := lttb_exact_count
    [sp 0 0, sp 1 5, sp 2 1, sp 3 8, sp 4 2, sp 5 9, sp 6 3, sp 7 7, sp 8 4, sp 9 6]
    5 (by norm_num) (by norm_num)
  exact ⟨by norm_num, by norm_num, h.1, h.2.1, h.2.2⟩

/-! ## Min-max bucketing lemmas -/

theorem bucketEmit_length (c : List TelemetryPoint) : (bucketEmit c).length ≤ 2 := by
  unfold bucketEmit
  match c with
  | [] => simp
  | [p] => simp
  | p :: q :: rest =>
    dsimp only
    split <;> simp

theorem foldl_minmax_prop (S : TelemetryPoint → Prop) :
    ∀ (l : List TelemetryPoint) (init : TelemetryPoint × TelemetryPoint),
      S init.1 → S init.2 → (∀ x ∈ l, S x) →
      S ((l.foldl
        (fun acc q =>
          let acc1 := if chSum q < chSum acc.1 then (q, acc.2) else acc
          if chSum acc1.2 < chSum q then (acc1.1, q) else acc1) init).1) ∧
      S ((l.foldl
        (fun acc q =>
          let acc1 := if chSum q < chSum acc.1 then (q, acc.2) else acc
          if chSum acc1.2 < chSum q then (acc1.1, q) else acc1) init).2) := by
  intro l
  induction l with
  | nil => intro init h1 h2 _; exact ⟨h1, h2⟩
  | cons q l ih =>
    intro init h1 h2 hl
    simp only [List.foldl_cons]
    have hq : S q := hl q (List.mem_cons_self q l)
    have hrest : ∀ x ∈ l, S x := fun x hx => hl x (List.mem_cons_of_mem q hx)
    refine ih _ ?_ ?_ hrest <;>
      (dsimp only; split <;> split <;> simp_all)

theorem minMaxFold_mem (bucket : List TelemetryPoint) (p0 : TelemetryPoint)
    (c : List TelemetryPoint) (hp0 : p0 ∈ c) (hb : ∀ x ∈ bucket, x ∈ c) :
    (minMaxFold bucket p0).1 ∈ c ∧ (minMaxFold bucket p0).2 ∈ c := by
  unfold minMaxFold
  exact foldl_minmax_prop (· ∈ c) bucket (p0, p0) hp0 hp0 hb

theorem bucketEmit_mem (c : List TelemetryPoint) (q : TelemetryPoint)
    (hq : q ∈ bucketEmit c) : q ∈ c := by
  unfold bucketEmit at hq
  match c, hq with
  | [p], hq =>
    rcases List.mem_singleton.mp hq with rfl
    exact List.mem_singleton.mpr rfl
  | p :: r :: rest, hq =>
    have hmm := minMaxFold_mem (p :: r :: rest) p (p :: r :: rest)
      (List.mem_cons_self _ _) (fun x hx => hx)
    dsimp only at hq
    split at hq <;>
      (rcases List.mem_cons.mp hq with rfl | hq2
       · first
         | exact hmm.1
         | exact hmm.2
       · rcases List.mem_singleton.mp hq2 with rfl
         first
           | exact hmm.1
           | exact hmm.2)

theorem bucketEmit_pairwise (c : List TelemetryPoint) :
    (bucketEmit c).Pairwise (fun a b => a.t ≤ b.t) := by
  unfold bucketEmit
  match c with
  | [] => exact List.Pairwise.nil
  | [p] => exact List.pairwise_singleton _ _
  | p :: r :: rest =>
    dsimp only
    split
    · rename_i hlt
      exact List.pairwise_pair.mpr (le_of_lt hlt)
    · rename_i hlt
      exact List.pairwise_pair.mpr (not_lt.mp hlt)

theorem chunkListAux_flatten (b : ℕ) (hb : 0 < b) :
    ∀ (fuel : ℕ) (xs : List TelemetryPoint), xs.length ≤ fuel →
      (chunkListAux b fuel xs).flatten = xs := by
  intro fuel
  induction fuel with
  | zero =>
    intro xs h
    have : xs = [] := List.eq_nil_of_length_eq_zero (Nat.le_zero.mp h)
    subst this
    rfl
  | succ fuel ih =>
    intro xs h
    match xs with
    | [] => rfl
    | x :: l =>
      show ((x :: l).take b ++ (chunkListAux b fuel ((x :: l).drop b)).flatten) = x :: l
      rw [ih ((x :: l).drop b)
        (by rw [List.length_drop]; simp only [List.length_cons] at h ⊢; omega)]
      exact List.take_append_drop b (x :: l)

theorem chunkListAux_count (b : ℕ) (hb : 0 < b) :
    ∀ (fuel : ℕ) (xs : List TelemetryPoint) (t : ℕ), xs.length ≤ fuel →
      xs.length ≤ b * t → (chunkListAux b fuel xs).length ≤ t := by
  intro fuel
  induction fuel with
  | zero =>
    intro xs t h _
    have : xs = [] := List.eq_nil_of_length_eq_zero (Nat.le_zero.mp h)
    subst this
    simp [chunkListAux]
  | succ fuel ih =>
    intro xs t h hbt
    match xs with
    | [] => simp [chunkListAux]
    | x :: l =>
      match t with
      | 0 =>
        rw [Nat.mul_zero] at hbt
        simp at hbt
      | t + 1 =>
        show ((x :: l).take b :: chunkListAux b fuel ((x :: l).drop b)).length ≤ t + 1
        rw [List.length_cons]
        have hdf : ((x :: l).drop b).length ≤ fuel := by
          rw [List.length_drop]
          omega
        have hdt : ((x :: l).drop b).length ≤ b * t := by
          rw [List.length_drop, Nat.mul_succ] at *
          exact Nat.sub_le_iff_le_add.mpr hbt
        exact Nat.succ_le_succ (ih _ t hdf hdt)

theorem chunkList_flatten (b : ℕ) (data : List TelemetryPoint) :
    (chunkList b data).flatten = data := by
  unfold chunkList
  split
  · split
    · rename_i h
      rw [List.isEmpty_iff] at h
      rw [h]
      rfl
    · simp
  · rename_i h
    exact chunkListAux_flatten b (Nat.pos_of_ne_zero h) data.length data le_rfl

theorem flatten_map_emit_length :
    ∀ (chunks : List (List TelemetryPoint)),
      ((chunks.map bucketEmit).flatten).length ≤ 2 * chunks.length := by
  intro chunks
  induction chunks with
  | nil => simp
  | cons c cs ih =>
    simp only [List.map_cons, List.flatten_cons, List.length_append, List.length_cons]
    have := bucketEmit_length c
    omega

theorem pairwise_flatten_map_emit (chunks : List (List TelemetryPoint))
    (h : (chunks.flatten).Pairwise (fun a b => a.t ≤ b.t)) :
    (((chunks.map bucketEmit)).flatten).Pairwise (fun a b => a.t ≤ b.t) := by
  rw [List.pairwise_flatten] at h ⊢
  obtain ⟨_, hcross⟩ := h
  constructor
  · intro l hl
    obtain ⟨c, _, rfl⟩ := List.mem_map.mp hl
    exact bucketEmit_pairwise c
  · rw [List.pairwise_map]
    refine hcross.imp ?_
    intro c d hcd x hx y hy
    exact hcd x (bucketEmit_mem c x hx) y (bucketEmit_mem d y hy)

theorem downsampleMinMax_not_guard (data : List TelemetryPoint) (targetPoints : ℕ)
    (hnt : targetPoints < data.length) :
    downsampleMinMax data targetPoints =
      ((chunkList ((data.length + targetPoints - 1) / targetPoints) data).map
        bucketEmit).flatten := by
  unfold downsampleMinMax
  rw [if_neg (not_le.mpr hnt)]

theorem downsampleMinMax_length (data : List TelemetryPoint) (targetPoints : ℕ)
    (ht : 0 < targetPoints) (hnt : targetPoints < data.length) :
    (downsampleMinMax data targetPoints).length ≤ 2 * targetPoints := by
  rw [downsampleMinMax_not_guard data targetPoints hnt]
  obtain ⟨t, rfl⟩ : ∃ t, targetPoints = t + 1 := ⟨targetPoints - 1, by omega⟩
  have hlen1 : 1 ≤ data.length := by omega
  have hbpos : 0 < (data.length + (t + 1) - 1) / (t + 1) :=
    Nat.div_pos (by omega) ht
  have hcount : (chunkList ((data.length + (t + 1) - 1) / (t + 1)) data).length ≤ t + 1 := by
    unfold chunkList
    rw [if_neg (by omega)]
    refine chunkListAux_count _ hbpos data.length data (t + 1) le_rfl ?_
    have hdm := Nat.div_add_mod (data.length + (t + 1) - 1) (t + 1)
    have hmod := Nat.mod_lt (data.length + (t + 1) - 1) ht
    have heq : data.length + (t + 1) - 1 = data.length + t := by omega
    rw [heq] at hdm hmod
    have hge : data.length ≤ (t + 1) * ((data.length + t) / (t + 1)) := by
      set q := (data.length + t) / (t + 1) with hq
      set r := (data.length + t) % (t + 1) with hr
      have h2 : r ≤ t := by omega
      linarith
    calc data.length ≤ (t + 1) * ((data.length + t) / (t + 1)) := hge
      _ = (data.length + t) / (t + 1) * (t + 1) := Nat.mul_comm _ _
      _ = (data.length + (t + 1) - 1) / (t + 1) * (t + 1) := by rw [heq]
  calc (((chunkList ((data.length + (t + 1) - 1) / (t + 1)) data).map
        bucketEmit).flatten).length
      ≤ 2 * (chunkList ((data.length + (t + 1) - 1) / (t + 1)) data).length :=
        flatten_map_emit_length _
    _ ≤ 2 * (t + 1) := Nat.mul_le_mul_left 2 hcount

theorem downsampleMinMax_pairwise (data : List TelemetryPoint) (targetPoints : ℕ)
    (hsorted : data.Pairwise (fun a b => a.t ≤ b.t)) :
    (downsampleMinMax data targetPoints).Pairwise (fun a b => a.t ≤ b.t) := by
  unfold downsampleMinMax
  split
  · exact hsorted
  · refine pairwise_flatten_map_emit _ ?_
    rw [chunkList_flatten]
    exact hsorted

/-- C2 counterexample: `downsampleMinMax` does not always keep the exact first
and last input points, and its output length is not bounded by
`2·⌈n/targetPoints⌉`.  On the 9-point input below with `targetPoints = 3`
(buckets of 3), the first point `sp 0 5` and the last point `sp 8 5` are both
strictly between their bucket's channel-sum minimum and maximum, so neither is
emitted; and on 10 strictly increasing points with `targetPoints = 5` the
output has all 10 points while `2·⌈10/5⌉ = 4`. -/
theorem minmax_endpoints_length_cex :
    ([sp 0 5, sp 1 1, sp 2 9, sp 3 5, sp 4 1, sp 5 9, sp 6 1, sp 7 9, sp 8 5] :
        List TelemetryPoint).headD default = sp 0 5 ∧
    ([sp 0 5, sp 1 1, sp 2 9, sp 3 5, sp 4 1, sp 5 9, sp 6 1, sp 7 9, sp 8 5] :
        List TelemetryPoint).getLastD default = sp 8 5 ∧
    sp 0 5 ∉ downsampleMinMax
      [sp 0 5, sp 1 1, sp 2 9, sp 3 5, sp 4 1, sp 5 9, sp 6 1, sp 7 9, sp 8 5] 3 ∧
    sp 8 5 ∉ downsampleMinMax
      [sp 0 5, sp 1 1, sp 2 9, sp 3 5, sp 4 1, sp 5 9, sp 6 1, sp 7 9, sp 8 5] 3 ∧
    (downsampleMinMax
      [sp 0 0, sp 1 1, sp 2 2, sp 3 3, sp 4 4, sp 5 5, sp 6 6, sp 7 7, sp 8 8, sp 9 9]
      5).length = 10 ∧
    2 * ((([sp 0 0, sp 1 1, sp 2 2, sp 3 3, sp 4 4, sp 5 5, sp 6 6, sp 7 7, sp 8 8,
        sp 9 9] : List TelemetryPoint).length + 5 - 1) / 5) = 4 := by
  refine ⟨rfl, rfl, ?_, ?_, ?_, by norm_num⟩ <;>
    norm_num [downsampleMinMax, chunkList, chunkListAux, bucketEmit, minMaxFold, chSum,
      sp, TelemetryPoint.mk.injEq]

/-- C2 (amended): for input length `n` with `n > budget > 2` (LTTB) and
`n > targetPoints > 0` (min-max) on a time-sorted input, the LTTB output has at
most `budget` points, contains the exact first and last input points, and is a
subsequence of the input (hence preserves relative time order); the min-max
output preserves time order and has at most `2·(number of buckets) ≤
2·targetPoints` points — but, unlike LTTB, it need not contain the first or
last input point, and its length is not bounded by `2·⌈n/targetPoints⌉`. -/
theorem downsample_endpoints_order_amended (data : List TelemetryPoint)
    (threshold targetPoints : ℕ)
    (h2 : 2 < threshold) (hn : threshold < data.length)
    (ht : 0 < targetPoints) (hnt : targetPoints < data.length)
    (hsorted : data.Pairwise (fun a b => a.t ≤ b.t)) :
    (downsampleLTTB data threshold).length ≤ threshold ∧
    data.headD default ∈ downsampleLTTB data threshold ∧
    data.getLastD default ∈ downsampleLTTB data threshold ∧
    List.Sublist (downsampleLTTB data threshold) data ∧
    (downsampleLTTB data threshold).Pairwise (fun a b => a.t ≤ b.t) ∧
    (downsampleMinMax data targetPoints).length ≤ 2 * targetPoints ∧
    (downsampleMinMax data targetPoints).Pairwise (fun a b => a.t ≤ b.t) :=
  ⟨le_of_eq (downsampleLTTB_length data threshold h2 hn),
   downsampleLTTB_mem_first data threshold h2 hn,
   downsampleLTTB_mem_last data threshold h2 hn,
   downsampleLTTB_sublist data threshold h2 hn,
   List.Pairwise.sublist (downsampleLTTB_sublist data threshold h2 hn) hsorted,
   downsampleMinMax_length data targetPoints ht hnt,
   downsampleMinMax_pairwise data targetPoints hsorted⟩

/-- Witness for the amended C2 at the spec's scenario input: 10 time-sorted
points, LTTB budget 5, min-max target 5. -/
theorem downsample_endpoints_order_amended_witness :
    2 < 5 ∧
    5 < ([sp 0 0, sp 1 5, sp 2 1, sp 3 8, sp 4 2, sp 5 9, sp 6 3, sp 7 7, sp 8 4,
        sp 9 6] : List TelemetryPoint).length ∧
    ([sp 0 0, sp 1 5, sp 2 1, sp 3 8, sp 4 2, sp 5 9, sp 6 3, sp 7 7, sp 8 4,
        sp 9 6] : List TelemetryPoint).Pairwise (fun a b => a.t ≤ b.t) ∧
    (downsampleLTTB
      [sp 0 0, sp 1 5, sp 2 1, sp 3 8, sp 4 2, sp 5 9, sp 6 3, sp 7 7, sp 8 4, sp 9 6]
      5).length ≤ 5 ∧
    ([sp 0 0, sp 1 5, sp 2 1, sp 3 8, sp 4 2, sp 5 9, sp 6 3, sp 7 7, sp 8 4,
        sp 9 6] : List TelemetryPoint).headD default ∈ downsampleLTTB
      [sp 0 0, sp 1 5, sp 2 1, sp 3 8, sp 4 2, sp 5 9, sp 6 3, sp 7 7, sp 8 4, sp 9 6] 5 ∧
    ([sp 0 0, sp 1 5, sp 2 1, sp 3 8, sp 4 2, sp 5 9, sp 6 3, sp 7 7, sp 8 4,
        sp 9 6] : List TelemetryPoint).getLastD default ∈ downsampleLTTB
      [sp 0 0, sp 1 5, sp 2 1, sp 3 8, sp 4 2, sp 5 9, sp 6 3, sp 7 7, sp 8 4, sp 9 6] 5 ∧
    List.Sublist
      (downsampleLTTB
        [sp 0 0, sp 1 5, sp 2 1, sp 3 8, sp 4 2, sp 5 9, sp 6 3, sp 7 7, sp 8 4, sp 9 6] 5)
      [sp 0 0, sp 1 5, sp 2 1, sp 3 8, sp 4 2, sp 5 9, sp 6 3, sp 7 7, sp 8 4, sp 9 6] ∧
    (downsampleMinMax
      [sp 0 0, sp 1 5, sp 2 1, sp 3 8, sp 4 2, sp 5 9, sp 6 3, sp 7 7, sp 8 4, sp 9 6]
      5).length ≤ 2 * 5 := by
  have h := downsample_endpoints_order_amended
    [sp 0 0, sp 1 5, sp 2 1, sp 3 8, sp 4 2, sp 5 9, sp 6 3, sp 7 7, sp 8 4, sp 9 6]
    5 5 (by norm_num) (by norm_num) (by norm_num) (by norm_num)
    (by norm_num [sp, List.pairwise_cons])
  exact ⟨by norm_num, by norm_num, by norm_num [sp, List.pairwise_cons],
    h.1, h.2.1, h.2.2.1, h.2.2.2.1, h.2.2.2.2.2.1⟩

/-- C10: when one point of a bucket with at least two elements is
simultaneously the channel-sum minimizing and maximizing point (for example
when all sums in the bucket are equal), `downsampleMinMax` pushes that single
point twice consecutively (`minPoint.t < maxPoint.t` fails, so it pushes
`maxPoint, minPoint` — the same point), so the output can contain duplicate
entries of one input point instead of being a duplicate-free subset: on the
two-point equal-sum input below with `targetPoints = 1` the output repeats the
first point and is not `Nodup` although the input is. -/
theorem minmax_duplicate_emission :
    (∀ (p q m : TelemetryPoint) (rest : List TelemetryPoint),
       minMaxFold (p :: q :: rest) p = (m, m) →
       bucketEmit (p :: q :: rest) = [m, m]) ∧
    downsampleMinMax [sp 0 1, { t := 1, speed := 0, current := 1, temp := 0 }] 1 =
      [sp 0 1, sp 0 1] ∧
    ¬ (downsampleMinMax [sp 0 1, { t := 1, speed := 0, current := 1, temp := 0 }]
        1).Nodup ∧
    ([sp 0 1, { t := 1, speed := 0, current := 1, temp := 0 }] :
        List TelemetryPoint).Nodup := by
  have heval : downsampleMinMax [sp 0 1, { t := 1, speed := 0, current := 1, temp := 0 }] 1 =
      [sp 0 1, sp 0 1] := by
    norm_num [downsampleMinMax, chunkList, chunkListAux, bucketEmit, minMaxFold, chSum, sp]
  refine ⟨?_, heval, ?_, ?_⟩
  · intro p q m rest hf
    unfold bucketEmit
    dsimp only
    rw [hf]
    simp
  · rw [heval]
    simp [List.Nodup]
  · norm_num [sp, List.Nodup, TelemetryPoint.mk.injEq]

/-- Witness for C10: a two-point bucket with equal channel sums, on which the
min/max fold returns the first point for both roles and the bucket therefore
emits it twice. -/
theorem minmax_duplicate_emission_witness :
    minMaxFold [sp 0 1, sp 1 1] (sp 0 1) = (sp 0 1, sp 0 1) ∧
    bucketEmit [sp 0 1, sp 1 1] = [sp 0 1, sp 0 1] := by
  have hf : minMaxFold [sp 0 1, sp 1 1] (sp 0 1) = (sp 0 1, sp 0 1) := by
    norm_num [minMaxFold, chSum, sp]
  exact ⟨hf, minmax_duplicate_emission.1 (sp 0 1) (sp 1 1) (sp 0 1) [] hf⟩
